import Mathlib

/-!
Verification of the timecard backend's cell-mapping and aggregation engine.

The Go source (`main.go`) is shallowly embedded below.  Go strings are
modelled as `List Char` (Go strings are byte sequences; all strings involved
are ASCII, so character sequences are a faithful model).  `float64` hours are
modelled as `ℚ` (the aggregation only adds, in input order, so the algebraic
structure matches).  Go maps are modelled as functions into `Option`, since
the code only reads them pointwise (it never iterates a map).  Cell addresses
(`fmt.Sprintf("%s%d", col, row)`) are modelled as a structured pair
(column string, row number); the column names in play contain no digits, so
the pairing is injective, matching string concatenation.  The spreadsheet
library (excelize) is an external collaborator: a sheet is a total function
from cell to value, `SetCellValue` is a pointwise update, a workbook is a
list of sheet names plus per-name sheet contents, and serialization is
modelled as returning the workbook itself.  `SetCellStyle` (borders) does
not change cell values and is omitted.  Go's `time` package is embedded
executably: an RFC 3339 parser, civil-calendar day arithmetic, and the
date-serial conversion.
-/

/-- Go string, modelled as a character list. -/
abbrev GoStr := List Char

/-! ## Data model (`main.go` type declarations) -/

/-- `Job` from `main.go`: `JobCode` is the job number, `JobName` the labour code. -/
structure Job where
  jobCode : GoStr
  jobName : GoStr
deriving DecidableEq, Repr

/-- `Entry` from `main.go` (canonical form after `UnmarshalJSON`). -/
structure Entry where
  date : GoStr
  jobCode : GoStr
  hours : ℚ
  overtime : Bool
  isNightShift : Bool
deriving DecidableEq, Repr

/-- `WeekData` from `main.go`. -/
structure WeekData where
  weekNumber : Int
  weekStartDate : GoStr
  weekLabel : GoStr
  entries : List Entry
deriving DecidableEq, Repr

/-- `TimecardRequest` from `main.go` (fields used by the Excel generator). -/
structure TimecardRequest where
  employeeName : GoStr
  payPeriodNum : Int
  year : Int
  jobs : List Job
  weeks : List WeekData
deriving DecidableEq, Repr

/-- The auxiliary `rawEntry` struct of `Entry.UnmarshalJSON`: the result of the
structural JSON decode.  Absent string fields decode to the empty string,
absent `*bool` fields to `none`. -/
structure RawEntry where
  date : GoStr
  jobCode : GoStr
  code : GoStr
  hours : ℚ
  overtime : Option Bool
  isOvertimeCamel : Option Bool
  nightShift : Option Bool
  isNightShiftSnake : Option Bool
  isNightShiftCamel : Option Bool
deriving DecidableEq, Repr

/-- Body of `Entry.UnmarshalJSON` (`main.go` lines 51–93): alias resolution
producing the canonical `Entry`. -/
def unmarshalEntry (aux : RawEntry) : Entry :=
  { date := aux.date
    jobCode := if aux.jobCode ≠ [] then aux.jobCode else aux.code
    hours := aux.hours
    overtime :=
      match aux.overtime with
      | some b => b
      | none =>
        match aux.isOvertimeCamel with
        | some b => b
        | none => false
    isNightShift :=
      match aux.nightShift with
      | some b => b
      | none =>
        match aux.isNightShiftSnake with
        | some b => b
        | none =>
          match aux.isNightShiftCamel with
          | some b => b
          | none => false }

/-! ## Civil calendar arithmetic (model of Go's `time` package internals) -/

/-- Days from 1970-01-01 to the given civil date (Howard Hinnant's algorithm,
as used to model `time.Date`/`time.Time.AddDate`).  Hinnant's C version
pre-adjusts negative years because C division truncates; Lean's `Int`
division by a positive divisor already rounds toward negative infinity, so
the era is the plain floored quotient here. -/
def daysFromCivil (y : Int) (m d : Nat) : Int :=
  let y' : Int := if m ≤ 2 then y - 1 else y
  let era : Int := y' / 400
  let yoe : Nat := (y' - era * 400).toNat
  let mp : Nat := (m + 9) % 12
  let doy : Nat := (153 * mp + 2) / 5 + d - 1
  let doe : Nat := yoe * 365 + yoe / 4 - yoe / 100 + doy
  era * 146097 + (doe : Int) - 719468

/-- Inverse of `daysFromCivil`: the civil date of the given day number.
As in `daysFromCivil`, Lean's floored `Int` division makes Hinnant's
negative-input pre-adjustment unnecessary (with it, the era would be off by
one for negative day numbers and dates in Jan/Feb of year 0 would come out
one day late). -/
def civilFromDays (z : Int) : Int × Nat × Nat :=
  let z' : Int := z + 719468
  let era : Int := z' / 146097
  let doe : Nat := (z' - era * 146097).toNat
  let yoe : Nat := (doe - doe / 1460 + doe / 36524 - doe / 146096) / 365
  let y : Int := (yoe : Int) + era * 400
  let doy : Nat := doe - (365 * yoe + yoe / 4 - yoe / 100)
  let mp : Nat := (5 * doy + 2) / 153
  let d : Nat := doy - (153 * mp + 2) / 5 + 1
  let m : Nat := if mp < 10 then mp + 3 else mp - 9
  (if m ≤ 2 then y + 1 else y, m, d)

/-- A parsed `time.Time`: wall-clock civil fields plus the zone offset the
RFC 3339 parser recorded (in minutes east of UTC). -/
structure DateTime where
  year : Int
  month : Nat
  day : Nat
  hour : Nat
  minute : Nat
  second : Nat
  nanos : Nat
  offsetMin : Int
deriving DecidableEq, Repr

/-- `t.AddDate(0, 0, n)`: add `n` days to the wall-clock date, keeping the
time of day and zone offset. -/
def addDays (t : DateTime) (n : Nat) : DateTime :=
  let z := daysFromCivil t.year t.month t.day + (n : Int)
  let c := civilFromDays z
  { t with year := c.1, month := c.2.1, day := c.2.2 }

/-- Decimal digits of `n`, zero-padded on the left to width `w`
(Go's fixed-width date formatting). -/
def padNum (w n : Nat) : GoStr :=
  let ds := Nat.toDigits 10 n
  List.replicate (w - ds.length) '0' ++ ds

/-- `t.Format("2006-01-02")`: the calendar-day key used by the aggregator. -/
def formatDateKey (t : DateTime) : GoStr :=
  padNum 4 t.year.toNat ++ '-' :: padNum 2 t.month ++ '-' :: padNum 2 t.day

/-- Seconds from the Unix epoch to the instant `t` denotes
(wall clock minus zone offset). -/
def unixSec (t : DateTime) : Int :=
  daysFromCivil t.year t.month t.day * 86400 +
    ((t.hour : Int) * 3600 + (t.minute : Int) * 60 + (t.second : Int)) -
    t.offsetMin * 60

/-- `time.Date(1899, 12, 30, 0, 0, 0, 0, time.UTC)`. -/
def excelEpoch : DateTime := ⟨1899, 12, 30, 0, 0, 0, 0, 0⟩

/-- The exact elapsed interval from `b` to `a` in nanoseconds. -/
def subNanosExact (a b : DateTime) : Int :=
  (unixSec a - unixSec b) * 1000000000 + ((a.nanos : Int) - (b.nanos : Int))

/-- `a.Sub(b)`: the elapsed interval as a `time.Duration`, which is a signed
64-bit nanosecond count — Go's `Sub` saturates at the maximum (minimum)
`Duration` when the exact interval does not fit. -/
def subNanos (a b : DateTime) : Int :=
  let d := subNanosExact a b
  if d > 9223372036854775807 then 9223372036854775807
  else if d < -9223372036854775808 then -9223372036854775808
  else d

/-- `timeToExcelDate` (`main.go` lines 558–561):
`t.Sub(excelEpoch).Hours() / 24.0`. -/
def timeToExcelDate (t : DateTime) : ℚ :=
  ((subNanos t excelEpoch : ℚ) / 3600000000000) / 24

/-- The value the spec ascribes to `timeToExcelDate`: the exact fractional
days elapsed from 1899-12-30T00:00:00Z to the instant `t`. -/
def elapsedDaysFromEpoch (t : DateTime) : ℚ :=
  (subNanosExact t excelEpoch : ℚ) / 86400000000000

/-! ## RFC 3339 parsing (model of `time.Parse(time.RFC3339, s)`) -/

/-- Numeric value of a decimal digit character. -/
def digitVal (c : Char) : Nat := c.toNat - '0'.toNat

/-- Value of a decimal digit string (most significant first). -/
def digitsVal (l : GoStr) : Nat := l.foldl (fun a c => a * 10 + digitVal c) 0

/-- Gregorian leap-year test. -/
def isLeapYear (y : Int) : Bool := y % 4 == 0 && (y % 100 != 0 || y % 400 == 0)

/-- Length of a month, as validated by Go's date parsing. -/
def daysInMonth (y : Int) (m : Nat) : Nat :=
  if m = 2 then (if isLeapYear y then 29 else 28)
  else if m = 4 ∨ m = 6 ∨ m = 9 ∨ m = 11 then 30
  else 31

/-- Parse the RFC 3339 numeric zone offset (or `Z`), returning minutes east
of UTC.  The whole remaining input must be consumed. -/
def parseOffset (s : GoStr) : Option Int :=
  match s with
  | ['Z'] => some 0
  | ['+', h1, h2, ':', m1, m2] =>
    if h1.isDigit && h2.isDigit && m1.isDigit && m2.isDigit then
      let h := digitsVal [h1, h2]
      let m := digitsVal [m1, m2]
      if h ≤ 23 ∧ m ≤ 59 then some ((h : Int) * 60 + (m : Int)) else none
    else none
  | ['-', h1, h2, ':', m1, m2] =>
    if h1.isDigit && h2.isDigit && m1.isDigit && m2.isDigit then
      let h := digitsVal [h1, h2]
      let m := digitsVal [m1, m2]
      if h ≤ 23 ∧ m ≤ 59 then some (-((h : Int) * 60 + (m : Int))) else none
    else none
  | _ => none

/-- Parse an optional fractional-second part followed by the zone offset,
returning nanoseconds and offset minutes. -/
def parseFracOffset (s : GoStr) : Option (Nat × Int) :=
  match s with
  | '.' :: rest =>
    let ds := rest.takeWhile Char.isDigit
    let r := rest.dropWhile Char.isDigit
    if 1 ≤ ds.length ∧ ds.length ≤ 9 then
      match parseOffset r with
      | some off => some (digitsVal ds * 10 ^ (9 - ds.length), off)
      | none => none
    else none
  | _ =>
    match parseOffset s with
    | some off => some (0, off)
    | none => none

/-- `time.Parse(time.RFC3339, s)`:
`YYYY-MM-DDTHH:MM:SS[.fff...](Z|±HH:MM)` with field range validation. -/
def parseRFC3339 (s : GoStr) : Option DateTime :=
  match s with
  | y1 :: y2 :: y3 :: y4 :: '-' :: o1 :: o2 :: '-' :: d1 :: d2 :: 'T' ::
      h1 :: h2 :: ':' :: i1 :: i2 :: ':' :: s1 :: s2 :: rest =>
    if (y1.isDigit && y2.isDigit && y3.isDigit && y4.isDigit &&
        o1.isDigit && o2.isDigit && d1.isDigit && d2.isDigit &&
        h1.isDigit && h2.isDigit && i1.isDigit && i2.isDigit &&
        s1.isDigit && s2.isDigit) then
      let y : Int := (digitsVal [y1, y2, y3, y4] : Int)
      let mo := digitsVal [o1, o2]
      let dd := digitsVal [d1, d2]
      let hh := digitsVal [h1, h2]
      let mi := digitsVal [i1, i2]
      let ss := digitsVal [s1, s2]
      if 1 ≤ mo ∧ mo ≤ 12 ∧ 1 ≤ dd ∧ dd ≤ daysInMonth y mo ∧
          hh ≤ 23 ∧ mi ≤ 59 ∧ ss ≤ 59 then
        match parseFracOffset rest with
        | some (ns, off) => some ⟨y, mo, dd, hh, mi, ss, ns, off⟩
        | none => none
      else none
    else none
  | _ => none

/-! ## Composite keys, aggregation, column order -/

/-- The composite key of an entry: `"N" + jobCode` for night shift, else
`jobCode` (`main.go` lines 466–470 and 545–549). -/
def entryKey (e : Entry) : GoStr :=
  if e.isNightShift then 'N' :: e.jobCode else e.jobCode

/-- One step of the aggregation loop of `fillWeekSheet` (lines 460–483),
restricted to the block `b` (the loop routes each entry into `regMap` or
`otMap` by its overtime flag; running it once per block is equivalent). -/
def aggStep (b : Bool) (m : GoStr → GoStr → Option ℚ) (e : Entry) :
    GoStr → GoStr → Option ℚ :=
  match parseRFC3339 e.date with
  | none => m
  | some t =>
    if e.overtime = b then
      fun dk k =>
        if dk = formatDateKey t ∧ k = entryKey e then
          some ((m (formatDateKey t) (entryKey e)).getD 0 + e.hours)
        else m dk k
    else m

/-- The per-block aggregation map of `fillWeekSheet`: for block `b`
(`true` = overtime), date key and composite key to summed hours.
`aggregateHours entries false` is `regMap`, `aggregateHours entries true`
is `otMap`. -/
def aggregateHours (entries : List Entry) (b : Bool) :
    GoStr → GoStr → Option ℚ :=
  entries.foldl (aggStep b) (fun _ _ => none)

/-- Loop body of `getUniqueJobNumbersForType` (`main.go` lines 539–556),
with the `seen` set made explicit. -/
def getUniqueAux (b : Bool) (seen : GoStr → Bool) : List Entry → List GoStr
  | [] => []
  | e :: rest =>
    if e.overtime ≠ b then getUniqueAux b seen rest
    else
      let key := entryKey e
      if seen key then getUniqueAux b seen rest
      else key :: getUniqueAux b (fun k => k = key || seen k) rest

/-- `getUniqueJobNumbersForType` (`main.go` lines 539–556): first-seen order
of distinct composite keys among entries of block `b`. -/
def getUniqueJobNumbersForType (entries : List Entry) (b : Bool) : List GoStr :=
  getUniqueAux b (fun _ => false) entries

/-- The column order the spec prescribes: the sequence of distinct keys in
order of first appearance (each key kept at its first occurrence only). -/
def firstSeenSpec : List GoStr → List GoStr
  | [] => []
  | k :: rest => k :: firstSeenSpec (rest.filter (fun x => x ≠ k))
termination_by l => l.length
decreasing_by
  exact Nat.lt_succ_of_le (List.length_filter_le _ _)

/-- The (block, date key, composite key) membership test the aggregator
implements: overtime flag matches, date parses and formats to the day key,
composite key matches. -/
def matchesBucket (b : Bool) (dk k : GoStr) (e : Entry) : Bool :=
  (e.overtime == b) &&
    (match parseRFC3339 e.date with
     | some t => formatDateKey t == dk
     | none => false) &&
    (entryKey e == k)

/-- `jobMap` of `fillWeekSheet` (lines 400–403): lookup from job number to
`Job`, later list elements overwriting earlier ones. -/
def jobMapF (jobs : List Job) : GoStr → Option Job :=
  jobs.foldl (fun m j => fun k => if k = j.jobCode then some j else m k)
    (fun _ => none)

/-- `strings.HasPrefix(key, "N")` on a composite key. -/
def headerNight (key : GoStr) : Bool :=
  List.isPrefixOf ['N'] key

/-- `key[1:]` under the night-prefix test: the job number a header looks up. -/
def headerActual (key : GoStr) : GoStr :=
  if headerNight key then key.drop 1 else key

/-! ## The sheet model and the projector's cell writes -/

/-- A cell address: column letters plus row number.  Models the Go address
string `col + strconv(row)`; the concatenation is injective because the
column names used contain no digits. -/
structure Cell where
  col : String
  row : Nat
deriving DecidableEq, Repr

/-- A cell's content. `empty` is the state of an untouched new-file cell. -/
inductive CellValue where
  | empty : CellValue
  | str : GoStr → CellValue
  | num : ℚ → CellValue
deriving DecidableEq, Repr

/-- A sheet: total assignment of values to cells. -/
abbrev Sheet := Cell → CellValue

/-- `SetCellValue` on one sheet: pointwise update. -/
def setCell (s : Sheet) (c : Cell) (v : CellValue) : Sheet :=
  fun c' => if c' = c then v else s c'

/-- Apply a list of cell writes in order (later writes win). -/
def applyOps (s : Sheet) (l : List (Cell × CellValue)) : Sheet :=
  l.foldl (fun s p => setCell s p.1 p.2) s

/-- `codeCols` (`main.go` line 396): the 16 label columns. -/
def codeCols : List String :=
  ["C", "E", "G", "I", "K", "M", "O", "Q", "S", "U", "W", "Y", "AA", "AC",
   "AE", "AG"]

/-- `jobCols` (`main.go` line 397): the 16 job-number columns. -/
def jobCols : List String :=
  ["D", "F", "H", "J", "L", "N", "P", "R", "T", "V", "X", "Z", "AB", "AD",
   "AF", "AH"]

/-- The two header cells one loop iteration of `fillWeekSheet` writes for
composite key `key` in column slot `i` (lines 419–426): nothing when the job
number does not resolve in `jobMap`. -/
def headerCellOps (jm : GoStr → Option Job) (key : GoStr) (i row : Nat) :
    List (Cell × CellValue) :=
  match jm (headerActual key) with
  | some job =>
    let code := if headerNight key then 'N' :: job.jobName else job.jobName
    [(⟨codeCols.getD i "", row⟩, CellValue.str code),
     (⟨jobCols.getD i "", row⟩, CellValue.str (headerActual key))]
  | none => []

/-- The header-row loop of `fillWeekSheet` (lines 409–430 / 433–454):
index `i` is the running column index and the loop breaks at 16. -/
def blockHeaderAux (jm : GoStr → Option Job) (row : Nat) :
    Nat → List GoStr → List (Cell × CellValue)
  | _, [] => []
  | i, key :: rest =>
    if 16 ≤ i then []
    else headerCellOps jm key i row ++ blockHeaderAux jm row (i + 1) rest

/-- The data cell one loop iteration of `fillWeekSheet` writes for aggregated
hours `mv` in column slot `i` (lines 502–506 / 514–518): written only when
the value is present and non-zero. -/
def dataCellOp (mv : Option ℚ) (i row : Nat) : List (Cell × CellValue) :=
  match mv with
  | some v =>
    if v ≠ 0 then [(⟨codeCols.getD i "", row⟩, CellValue.num v)] else []
  | none => []

/-- The data-cell loop of `fillWeekSheet` (lines 497–507 / 509–519) for one
day row; the loop breaks at column 16. -/
def dataOpsAux (m : GoStr → GoStr → Option ℚ) (dk : GoStr) (row : Nat) :
    Nat → List GoStr → List (Cell × CellValue)
  | _, [] => []
  | i, key :: rest =>
    if 16 ≤ i then []
    else dataCellOp (m dk key) i row ++ dataOpsAux m dk row (i + 1) rest

/-- The five header-info writes of `fillWeekSheet` (lines 389–393). -/
def headerInfoOps (req : TimecardRequest) (week : WeekData)
    (weekStart : DateTime) : List (Cell × CellValue) :=
  [(⟨"M", 2⟩, CellValue.str req.employeeName),
   (⟨"AJ", 2⟩, CellValue.num (req.payPeriodNum : ℚ)),
   (⟨"AJ", 3⟩, CellValue.num (req.year : ℚ)),
   (⟨"B", 4⟩, CellValue.num (timeToExcelDate weekStart)),
   (⟨"AJ", 4⟩, CellValue.str week.weekLabel)]

/-- The writes of `fillWeekSheet`'s day loop (lines 486–521) for day offset
`d`: the two date-serial cells, then the regular data cells (row `5 + d`),
then the overtime data cells (row `16 + d`). -/
def dayOps (regMap otMap : GoStr → GoStr → Option ℚ)
    (regularKeys overtimeKeys : List GoStr) (weekStart : DateTime) (d : Nat) :
    List (Cell × CellValue) :=
  let day := addDays weekStart d
  let dk := formatDateKey day
  let serial := timeToExcelDate day
  [(⟨"B", 5 + d⟩, CellValue.num serial),
   (⟨"B", 16 + d⟩, CellValue.num serial)]
  ++ dataOpsAux regMap dk (5 + d) 0 regularKeys
  ++ dataOpsAux otMap dk (16 + d) 0 overtimeKeys

/-- The complete ordered list of `SetCellValue` calls `fillWeekSheet`
(lines 380–537) performs on its sheet once the week start date has parsed. -/
def weekOpsList (req : TimecardRequest) (week : WeekData)
    (weekStart : DateTime) : List (Cell × CellValue) :=
  headerInfoOps req week weekStart
  ++ blockHeaderAux (jobMapF req.jobs) 4 0
      (getUniqueJobNumbersForType week.entries false)
  ++ blockHeaderAux (jobMapF req.jobs) 15 0
      (getUniqueJobNumbersForType week.entries true)
  ++ (List.range 7).flatMap
      (dayOps (aggregateHours week.entries false)
        (aggregateHours week.entries true)
        (getUniqueJobNumbersForType week.entries false)
        (getUniqueJobNumbersForType week.entries true) weekStart)

/-- `fillWeekSheet`'s effect, or an error when the week start date does not
parse (the parse happens before any write). -/
def fillWeekSheetOps (req : TimecardRequest) (week : WeekData) :
    Except String (List (Cell × CellValue)) :=
  match parseRFC3339 week.weekStartDate with
  | none => Except.error "parse week start"
  | some weekStart => Except.ok (weekOpsList req week weekStart)

/-- `fillWeekSheet` as the caller sees it: on success the writes are applied
to the sheet; on a week-start parse error the sheet is untouched (the error
is logged and swallowed by `generateExcelFile`). -/
def applyWeek (s : Sheet) (req : TimecardRequest) (week : WeekData) : Sheet :=
  match fillWeekSheetOps req week with
  | Except.error _ => s
  | Except.ok ops => applyOps s ops

/-- A workbook: sheet names in order plus per-name contents. -/
structure Workbook where
  sheetNames : List String
  cells : String → Sheet

/-- Replace one named sheet's contents. -/
def updateSheet (wb : Workbook) (name : String) (s : Sheet) : Workbook :=
  ⟨wb.sheetNames, fun n => if n = name then s else wb.cells n⟩

/-- `generateBasicExcelFile` (`main.go` lines 563–574): a fresh single-sheet
workbook with `A1 = "Employee:"` and `B1` the employee name. -/
def generateBasicExcelFile (req : TimecardRequest) : Workbook :=
  ⟨["Sheet1"],
   fun n =>
     if n = "Sheet1" then
       applyOps (fun _ => CellValue.empty)
         [(⟨"A", 1⟩, CellValue.str "Employee:".toList),
          (⟨"B", 1⟩, CellValue.str req.employeeName)]
     else fun _ => CellValue.empty⟩

/-- `generateExcelFile` (`main.go` lines 261–297).  `tmpl` is the result of
`excelize.OpenFile("template.xlsx")`: `none` when the template is missing.
A zero-sheet template is an error; otherwise up to two weeks are projected
onto the first two sheets, week-fill errors being logged and swallowed.
Serialization is modelled as returning the workbook. -/
def generateExcelFile (tmpl : Option Workbook) (req : TimecardRequest) :
    Except String Workbook :=
  match tmpl with
  | none => Except.ok (generateBasicExcelFile req)
  | some f =>
    let sheets := f.sheetNames
    if sheets.isEmpty then Except.error "no sheets in template"
    else
      let f1 :=
        match req.weeks.get? 0 with
        | some w1 =>
          updateSheet f (sheets.getD 0 "")
            (applyWeek (f.cells (sheets.getD 0 "")) req w1)
        | none => f
      let f2 :=
        if 1 < sheets.length then
          match req.weeks.get? 1 with
          | some w2 =>
            updateSheet f1 (sheets.getD 1 "")
              (applyWeek (f1.cells (sheets.getD 1 "")) req w2)
          | none => f1
        else f1
      Except.ok f2

/-! ## Concrete fixtures for the closed instance theorems -/

/-- A template sheet with every cell at its default. -/
def fxTmpl : Sheet := fun _ => CellValue.empty

/-- A regular Monday entry: job 29699, 8 hours. -/
def fxEntry1 : Entry :=
  ⟨"2024-01-01T08:00:00Z".toList, "29699".toList, 8, false, false⟩

/-- A night-shift entry on job 29699. -/
def fxEntryNight : Entry :=
  ⟨"2024-01-01T09:00:00Z".toList, "29699".toList, 3, false, true⟩

/-- A non-night entry whose job code already carries the `N` prefix. -/
def fxEntryAlias : Entry :=
  ⟨"2024-01-01T10:00:00Z".toList, "N29699".toList, 8, false, false⟩

/-- Job 29699 with labour code 201. -/
def fxJob : Job := ⟨"29699".toList, "201".toList⟩

/-- The parse of `2024-01-01T00:00:00Z`. -/
def fxWs : DateTime := ⟨2024, 1, 1, 0, 0, 0, 0, 0⟩

/-- A one-entry week starting 2024-01-01. -/
def fxWeek : WeekData := ⟨1, "2024-01-01T00:00:00Z".toList, "W1".toList, [fxEntry1]⟩

/-- A request with one job and one week. -/
def fxReq : TimecardRequest := ⟨"Jo".toList, 5, 2024, [fxJob], [fxWeek]⟩

/-- The same request with an empty job list. -/
def fxReqNoJobs : TimecardRequest := ⟨"Jo".toList, 5, 2024, [], [fxWeek]⟩

/-- A week whose start date does not parse. -/
def fxWeekBad : WeekData := ⟨1, "bad".toList, "W1".toList, [fxEntry1]⟩

/-- An empty second week starting 2024-01-08. -/
def fxWeek2 : WeekData := ⟨2, "2024-01-08T00:00:00Z".toList, "W2".toList, []⟩

/-- A request whose first week has an unparsable start date. -/
def fxReqTwoWeeks : TimecardRequest :=
  ⟨"Jo".toList, 5, 2024, [fxJob], [fxWeekBad, fxWeek2]⟩

/-- A two-sheet template workbook. -/
def fxWb : Workbook := ⟨["Sheet1", "Sheet2"], fun _ => fxTmpl⟩

/-- A workbook with no sheets. -/
def fxWbEmpty : Workbook := ⟨[], fun _ => fxTmpl⟩

/-- An empty request. -/
def fxReqEmpty : TimecardRequest := ⟨[], 0, 0, [], []⟩

/-- A raw entry exercising the alias precedence rules. -/
def fxRawA : RawEntry :=
  ⟨[], "X".toList, "Y".toList, 1, some true, some false, none, some true,
   some false⟩

/-- A raw entry with every optional field absent and an empty job code. -/
def fxRawB : RawEntry := ⟨[], [], "Y".toList, 2, none, none, none, none, none⟩

/-! ## Helper lemmas: applying cell writes -/

theorem cell_ne_of_row {c1 c2 : Cell} (h : c1.row ≠ c2.row) : c1 ≠ c2 :=
  fun e => h (congrArg Cell.row e)

theorem cell_ne_of_col {c1 c2 : Cell} (h : c1.col ≠ c2.col) : c1 ≠ c2 :=
  fun e => h (congrArg Cell.col e)

theorem cell_ne_mk_row {c1 : Cell} {co : String} {r : Nat} (h : c1.row ≠ r) :
    c1 ≠ (⟨co, r⟩ : Cell) :=
  cell_ne_of_row h

theorem cell_ne_mk_col {c1 : Cell} {co : String} {r : Nat} (h : c1.col ≠ co) :
    c1 ≠ (⟨co, r⟩ : Cell) :=
  cell_ne_of_col h

theorem applyOps_append (s : Sheet) (l1 l2 : List (Cell × CellValue)) :
    applyOps s (l1 ++ l2) = applyOps (applyOps s l1) l2 :=
  List.foldl_append _ _ _ _

theorem applyOps_not_target (s : Sheet) (l : List (Cell × CellValue)) (c : Cell)
    (h : ∀ p ∈ l, p.1 ≠ c) : applyOps s l c = s c := by
  induction l generalizing s with
  | nil => rfl
  | cons p rest ih =>
    have hrest : ∀ q ∈ rest, q.1 ≠ c := fun q hq => h q (List.mem_cons_of_mem _ hq)
    have hp : p.1 ≠ c := h p (List.mem_cons_self _ _)
    show applyOps (setCell s p.1 p.2) rest c = s c
    rw [ih _ hrest]
    simp [setCell, Ne.symm hp]

theorem applyOps_congr_at (s1 s2 : Sheet) (l : List (Cell × CellValue)) (c : Cell)
    (h : s1 c = s2 c) : applyOps s1 l c = applyOps s2 l c := by
  induction l generalizing s1 s2 with
  | nil => exact h
  | cons p rest ih =>
    show applyOps (setCell s1 p.1 p.2) rest c = applyOps (setCell s2 p.1 p.2) rest c
    apply ih
    simp only [setCell]
    split <;> simp [h]

theorem applyOps_skip_left (s : Sheet) (l1 l2 : List (Cell × CellValue)) (c : Cell)
    (h : ∀ p ∈ l1, p.1 ≠ c) : applyOps s (l1 ++ l2) c = applyOps s l2 c := by
  rw [applyOps_append]
  exact applyOps_congr_at _ _ _ _ (applyOps_not_target _ _ _ h)

theorem applyOps_skip_right (s : Sheet) (l1 l2 : List (Cell × CellValue)) (c : Cell)
    (h : ∀ p ∈ l2, p.1 ≠ c) : applyOps s (l1 ++ l2) c = applyOps s l1 c := by
  rw [applyOps_append]
  exact applyOps_not_target _ _ _ h

theorem applyOps_range_single (f : Nat → List (Cell × CellValue)) (n d : Nat)
    (c : Cell) (s : Sheet) (hd : d < n)
    (h : ∀ d', d' < n → d' ≠ d → ∀ p ∈ f d', p.1 ≠ c) :
    applyOps s ((List.range n).flatMap f) c = applyOps s (f d) c := by
  induction n generalizing s with
  | zero => omega
  | succ m ih =>
    rw [List.range_succ, List.flatMap_append]
    rcases Nat.lt_or_ge d m with hdm | hdm
    · rw [applyOps_skip_right]
      · exact ih s hdm (fun d' h1 h2 => h d' (Nat.lt_succ_of_lt h1) h2)
      · intro p hp
        simp only [List.flatMap_cons, List.flatMap_nil, List.append_nil] at hp
        exact h m (Nat.lt_succ_self m) (by omega) p hp
    · have hdm' : d = m := by omega
      subst hdm'
      rw [applyOps_skip_left]
      · simp [List.flatMap_cons]
      · intro p hp
        rcases List.mem_flatMap.mp hp with ⟨d', hd', hpd⟩
        exact h d' (Nat.lt_succ_of_lt (List.mem_range.mp hd')) (by
          have := List.mem_range.mp hd'; omega) p hpd

/-! ## Helper lemmas: the fixed column geometry -/

theorem codeCols_getD_inj :
    ∀ a, a < 16 → ∀ b, b < 16 → codeCols.getD a "" = codeCols.getD b "" → a = b := by
  decide

theorem jobCols_getD_inj :
    ∀ a, a < 16 → ∀ b, b < 16 → jobCols.getD a "" = jobCols.getD b "" → a = b := by
  decide

theorem codeCols_getD_ne_jobCols :
    ∀ a, a < 16 → ∀ b, b < 16 → codeCols.getD a "" ≠ jobCols.getD b "" := by
  decide

theorem codeCols_getD_ne_fixed :
    ∀ a, a < 16 → codeCols.getD a "" ≠ "B" ∧ codeCols.getD a "" ≠ "AJ" := by
  decide

theorem jobCols_getD_ne_fixed :
    ∀ a, a < 16 → jobCols.getD a "" ≠ "B" ∧ jobCols.getD a "" ≠ "AJ" := by
  decide

/-! ## Helper lemmas: shapes of the per-block write lists -/


/-! ## Helper lemmas: shapes of the per-block write lists -/

theorem mem_dataCellOp (mv : Option ℚ) (i row : Nat) :
    ∀ p ∈ dataCellOp mv i row,
      p.1 = (⟨codeCols.getD i "", row⟩ : Cell) := by
  intro p hp
  rcases mv with _ | v
  · simp [dataCellOp] at hp
  · simp only [dataCellOp] at hp
    by_cases hv : v ≠ 0
    · rw [if_pos hv] at hp
      rw [List.mem_singleton.mp hp]
    · rw [if_neg hv] at hp
      simp at hp

theorem applyOps_dataCellOp_at (s : Sheet) (mv : Option ℚ) (i row : Nat) :
    applyOps s (dataCellOp mv i row) ⟨codeCols.getD i "", row⟩ =
      match mv with
      | some v =>
        if v = 0 then s ⟨codeCols.getD i "", row⟩ else CellValue.num v
      | none => s ⟨codeCols.getD i "", row⟩ := by
  rcases mv with _ | v
  · rfl
  · show applyOps s
      (if v ≠ 0 then [(⟨codeCols.getD i "", row⟩, CellValue.num v)] else [])
      ⟨codeCols.getD i "", row⟩ = if v = 0 then _ else CellValue.num v
    by_cases hv : v = 0
    · rw [if_neg (fun h => h hv), if_pos hv]
      rfl
    · rw [if_pos hv, if_neg hv]
      show setCell s _ _ _ = _
      simp [setCell]

theorem mem_headerCellOps (jm : GoStr → Option Job) (key : GoStr) (i row : Nat) :
    ∀ p ∈ headerCellOps jm key i row,
      (jm (headerActual key)).isSome ∧
        (p.1 = (⟨codeCols.getD i "", row⟩ : Cell) ∨
         p.1 = (⟨jobCols.getD i "", row⟩ : Cell)) := by
  intro p hp
  rcases hjm : jm (headerActual key) with _ | job <;>
    simp only [headerCellOps, hjm] at hp
  · simp at hp
  · rcases List.mem_cons.mp hp with h | h
    · rw [h]
      exact ⟨rfl, Or.inl rfl⟩
    · rw [List.mem_singleton.mp h]
      exact ⟨rfl, Or.inr rfl⟩

theorem dataOpsAux_targets (m : GoStr → GoStr → Option ℚ) (dk : GoStr)
    (row : Nat) (keys : List GoStr) :
    ∀ i, ∀ p ∈ dataOpsAux m dk row i keys,
      p.1.row = row ∧ ∃ t, i ≤ t ∧ t < 16 ∧ p.1.col = codeCols.getD t "" := by
  induction keys with
  | nil => intro i p hp; simp [dataOpsAux] at hp
  | cons key rest ih =>
    intro i p hp
    by_cases h16 : 16 ≤ i
    · simp only [dataOpsAux, if_pos h16] at hp
      simp at hp
    · simp only [dataOpsAux, if_neg h16] at hp
      rcases List.mem_append.mp hp with hp1 | hp2
      · rw [mem_dataCellOp _ _ _ p hp1]
        exact ⟨rfl, i, Nat.le_refl i, by omega, rfl⟩
      · rcases ih (i + 1) p hp2 with ⟨h1, t, ht1, ht2, ht3⟩
        exact ⟨h1, t, by omega, ht2, ht3⟩

theorem blockHeaderAux_targets (jm : GoStr → Option Job) (row : Nat)
    (keys : List GoStr) :
    ∀ i, ∀ p ∈ blockHeaderAux jm row i keys,
      p.1.row = row ∧ ∃ t key', i ≤ t ∧ t < 16 ∧
        keys.get? (t - i) = some key' ∧ (jm (headerActual key')).isSome ∧
        (p.1.col = codeCols.getD t "" ∨ p.1.col = jobCols.getD t "") := by
  induction keys with
  | nil => intro i p hp; simp [blockHeaderAux] at hp
  | cons key rest ih =>
    intro i p hp
    by_cases h16 : 16 ≤ i
    · simp only [blockHeaderAux, if_pos h16] at hp
      simp at hp
    · simp only [blockHeaderAux, if_neg h16] at hp
      rcases List.mem_append.mp hp with hp1 | hp2
      · rcases mem_headerCellOps jm key i row p hp1 with ⟨hsome, hcol⟩
        have hrow : p.1.row = row := by
          rcases hcol with h | h <;> rw [h]
        refine ⟨hrow, i, key, Nat.le_refl i, by omega, by simp, hsome, ?_⟩
        rcases hcol with h | h
        · exact Or.inl (by rw [h])
        · exact Or.inr (by rw [h])
      · rcases ih (i + 1) p hp2 with ⟨h1, t, key', ht1, ht2, ht3, ht4, ht5⟩
        refine ⟨h1, t, key', by omega, ht2, ?_, ht4, ht5⟩
        have he : t - i = (t - (i + 1)) + 1 := by omega
        rw [he]
        simpa using ht3

theorem applyOps_dataOpsAux (m : GoStr → GoStr → Option ℚ) (dk : GoStr)
    (row : Nat) (keys : List GoStr) (s : Sheet) :
    ∀ i j key, keys.get? j = some key → i + j < 16 →
      applyOps s (dataOpsAux m dk row i keys) ⟨codeCols.getD (i + j) "", row⟩ =
        match m dk key with
        | some v =>
          if v = 0 then s ⟨codeCols.getD (i + j) "", row⟩ else CellValue.num v
        | none => s ⟨codeCols.getD (i + j) "", row⟩ := by
  induction keys with
  | nil => intro i j key hkey _; simp at hkey
  | cons key0 rest ih =>
    intro i j key hkey hij
    have h16 : ¬ 16 ≤ i := by omega
    simp only [dataOpsAux, if_neg h16]
    cases j with
    | zero =>
      have hk : key0 = key := by simpa using hkey
      subst hk
      have htail : ∀ p ∈ dataOpsAux m dk row (i + 1) rest,
          p.1 ≠ (⟨codeCols.getD (i + 0) "", row⟩ : Cell) := by
        intro p hp
        rcases dataOpsAux_targets m dk row rest (i + 1) p hp with ⟨_, t, ht1, ht2, ht3⟩
        apply cell_ne_of_col
        rw [ht3]
        intro hcol
        exact absurd (codeCols_getD_inj t ht2 (i + 0) (by omega) hcol) (by omega)
      rw [applyOps_skip_right _ _ _ _ htail]
      exact applyOps_dataCellOp_at s (m dk key0) i row
    | succ j' =>
      have hkey' : rest.get? j' = some key := by simpa using hkey
      have hhead : ∀ p ∈ dataCellOp (m dk key0) i row,
          p.1 ≠ (⟨codeCols.getD (i + (j' + 1)) "", row⟩ : Cell) := by
        intro p hp
        rw [mem_dataCellOp _ _ _ p hp]
        apply cell_ne_of_col
        intro hcol
        exact absurd (codeCols_getD_inj i (by omega) (i + (j' + 1)) (by omega) hcol)
          (by omega)
      rw [applyOps_skip_left _ _ _ _ hhead]
      have he : i + (j' + 1) = (i + 1) + j' := by omega
      rw [he]
      exact ih (i + 1) j' key hkey' (by omega)

/-! ## Helper lemmas: the aggregation map as a filtered sum -/

theorem aggFold_spec (b : Bool) (dk k : GoStr) (l : List Entry) :
    ∀ m0 : GoStr → GoStr → Option ℚ,
      (List.foldl (aggStep b) m0 l) dk k =
        if (l.filter (matchesBucket b dk k)).isEmpty then m0 dk k
        else some ((m0 dk k).getD 0 +
          ((l.filter (matchesBucket b dk k)).map Entry.hours).sum) := by
  induction l with
  | nil => intro m0; simp
  | cons e rest ih =>
    intro m0
    rw [List.foldl_cons]
    rcases hpe : parseRFC3339 e.date with _ | t
    · have hstep : aggStep b m0 e = m0 := by simp [aggStep, hpe]
      have hfc : (e :: rest).filter (matchesBucket b dk k) =
          rest.filter (matchesBucket b dk k) := by
        simp [List.filter_cons, matchesBucket, hpe]
      rw [hstep, hfc, ih m0]
    · by_cases hov : e.overtime = b
      · by_cases hcond : dk = formatDateKey t ∧ k = entryKey e
        · rcases hcond with ⟨h1, h2⟩
          subst h1
          subst h2
          have hm1 : (aggStep b m0 e) (formatDateKey t) (entryKey e) =
              some ((m0 (formatDateKey t) (entryKey e)).getD 0 + e.hours) := by
            simp [aggStep, hpe, hov]
          have hmb : matchesBucket b (formatDateKey t) (entryKey e) e = true := by
            simp [matchesBucket, hpe, hov]
          have hfc : (e :: rest).filter
              (matchesBucket b (formatDateKey t) (entryKey e)) =
              e :: rest.filter (matchesBucket b (formatDateKey t) (entryKey e)) := by
            simp [List.filter_cons, hmb]
          rw [ih (aggStep b m0 e), hfc, hm1]
          by_cases hre :
              (rest.filter (matchesBucket b (formatDateKey t) (entryKey e))).isEmpty
          · rw [if_pos hre]
            have hre' : rest.filter (matchesBucket b (formatDateKey t) (entryKey e))
                = [] := by simpa using hre
            rw [hre']
            simp
          · rw [if_neg hre]
            have hne : ((e :: rest.filter
                (matchesBucket b (formatDateKey t) (entryKey e))).isEmpty) = false := by
              simp
            rw [hne]
            simp [add_assoc]
        · have hm1 : (aggStep b m0 e) dk k = m0 dk k := by
            simp only [aggStep, hpe]
            rw [if_pos hov]
            rw [if_neg hcond]
          have hmb : matchesBucket b dk k e = false := by
            simp only [matchesBucket, hpe, hov, beq_self_eq_true, Bool.true_and]
            rw [Bool.and_eq_false_iff]
            by_cases h1 : formatDateKey t = dk
            · right
              rw [beq_eq_false_iff_ne]
              intro h2
              exact hcond ⟨h1.symm, h2.symm⟩
            · left
              rw [beq_eq_false_iff_ne]
              exact h1
          have hfc : (e :: rest).filter (matchesBucket b dk k) =
              rest.filter (matchesBucket b dk k) := by
            simp [List.filter_cons, hmb]
          rw [hfc, ih (aggStep b m0 e), hm1]
      · have hstep : aggStep b m0 e = m0 := by simp [aggStep, hpe, hov]
        have hmb : matchesBucket b dk k e = false := by
          simp [matchesBucket, hpe, hov]
        have hfc : (e :: rest).filter (matchesBucket b dk k) =
            rest.filter (matchesBucket b dk k) := by
          simp [List.filter_cons, hmb]
        rw [hstep, hfc, ih m0]

theorem aggregate_spec (entries : List Entry) (b : Bool) (dk k : GoStr) :
    aggregateHours entries b dk k =
      if (entries.filter (matchesBucket b dk k)).isEmpty then none
      else some (((entries.filter (matchesBucket b dk k)).map Entry.hours).sum) := by
  have h := aggFold_spec b dk k entries (fun _ _ => none)
  rw [aggregateHours]
  rw [h]
  split
  · rfl
  · simp

/-! ## Helper lemmas: first-seen column order -/

theorem getUniqueAux_spec (b : Bool) (l : List Entry) :
    ∀ seen : GoStr → Bool,
      getUniqueAux b seen l =
        firstSeenSpec (((l.filter (fun e => e.overtime == b)).map entryKey).filter
          (fun x => !seen x)) := by
  induction l with
  | nil => intro seen; simp [getUniqueAux, firstSeenSpec]
  | cons e rest ih =>
    intro seen
    by_cases hov : e.overtime = b
    · have hov' : ¬ e.overtime ≠ b := by simpa using hov
      have hfc : (e :: rest).filter (fun e => e.overtime == b) =
          e :: rest.filter (fun e => e.overtime == b) := by
        simp [List.filter_cons, hov]
      rw [hfc, List.map_cons]
      by_cases hseen : seen (entryKey e)
      · have hfc2 : (entryKey e :: (rest.filter
            (fun e => e.overtime == b)).map entryKey).filter (fun x => !seen x) =
            ((rest.filter (fun e => e.overtime == b)).map entryKey).filter
              (fun x => !seen x) := by
          simp [List.filter_cons, hseen]
        rw [hfc2, getUniqueAux, if_neg hov']
        rw [if_pos hseen]
        exact ih seen
      · have hfc2 : (entryKey e :: (rest.filter
            (fun e => e.overtime == b)).map entryKey).filter (fun x => !seen x) =
            entryKey e :: ((rest.filter (fun e => e.overtime == b)).map
              entryKey).filter (fun x => !seen x) := by
          simp [List.filter_cons, hseen]
        rw [hfc2, getUniqueAux, if_neg hov', if_neg hseen, firstSeenSpec]
        congr 1
        rw [ih (fun k => k = entryKey e || seen k), List.filter_filter]
        have hpred : (fun x => !(decide (x = entryKey e) || seen x)) =
            (fun a => decide (a ≠ entryKey e) && !seen a) := by
          funext x
          by_cases hx : x = entryKey e <;> simp [hx]
        rw [hpred]
    · have hov' : e.overtime ≠ b := hov
      have hfc : (e :: rest).filter (fun e => e.overtime == b) =
          rest.filter (fun e => e.overtime == b) := by
        simp [List.filter_cons, hov]
      rw [hfc, getUniqueAux, if_pos hov']
      exact ih seen

theorem getUnique_eq_firstSeen (entries : List Entry) (b : Bool) :
    getUniqueJobNumbersForType entries b =
      firstSeenSpec ((entries.filter (fun e => e.overtime == b)).map entryKey) := by
  rw [getUniqueJobNumbersForType, getUniqueAux_spec]
  simp

theorem firstSeenSpec_mem : ∀ n (l : List GoStr), l.length ≤ n →
    ∀ x, x ∈ firstSeenSpec l → x ∈ l := by
  intro n
  induction n with
  | zero =>
    intro l hl x hx
    have hnil : l = [] := List.eq_nil_of_length_eq_zero (by omega)
    subst hnil
    simp [firstSeenSpec] at hx
  | succ m ih =>
    intro l hl x hx
    cases l with
    | nil => simp [firstSeenSpec] at hx
    | cons k rest =>
      rw [firstSeenSpec] at hx
      rcases List.mem_cons.mp hx with h | h
      · exact h ▸ List.mem_cons_self _ _
      · have hlen : (rest.filter (fun x => x ≠ k)).length ≤ m := by
          have := List.length_filter_le (fun x => decide (x ≠ k)) rest
          simp only [List.length_cons] at hl
          omega
        have hx' := ih (rest.filter (fun x => x ≠ k)) hlen x h
        exact List.mem_cons_of_mem _ (List.mem_of_mem_filter hx')

theorem firstSeenSpec_nodup : ∀ n (l : List GoStr), l.length ≤ n →
    (firstSeenSpec l).Nodup := by
  intro n
  induction n with
  | zero =>
    intro l hl
    have hnil : l = [] := List.eq_nil_of_length_eq_zero (by omega)
    subst hnil
    simp [firstSeenSpec]
  | succ m ih =>
    intro l hl
    cases l with
    | nil => simp [firstSeenSpec]
    | cons k rest =>
      rw [firstSeenSpec]
      have hlen : (rest.filter (fun x => x ≠ k)).length ≤ m := by
        have := List.length_filter_le (fun x => decide (x ≠ k)) rest
        simp only [List.length_cons] at hl
        omega
      refine List.Nodup.cons ?_ (ih _ hlen)
      intro hk
      have := firstSeenSpec_mem m _ hlen k hk
      have := List.of_mem_filter this
      simp at this

theorem getUnique_nodup (entries : List Entry) (b : Bool) :
    (getUniqueJobNumbersForType entries b).Nodup := by
  rw [getUnique_eq_firstSeen]
  exact firstSeenSpec_nodup _ _ (Nat.le_refl _)

/-! ## Helper lemmas: evaluating the projector at a cell -/

theorem applyWeek_parse_fail (tmpl : Sheet) (req : TimecardRequest)
    (week : WeekData) (hws : parseRFC3339 week.weekStartDate = none) :
    applyWeek tmpl req week = tmpl := by
  simp [applyWeek, fillWeekSheetOps, hws]

theorem applyWeek_parse_ok (tmpl : Sheet) (req : TimecardRequest)
    (week : WeekData) (ws : DateTime)
    (hws : parseRFC3339 week.weekStartDate = some ws) :
    applyWeek tmpl req week = applyOps tmpl (weekOpsList req week ws) := by
  simp [applyWeek, fillWeekSheetOps, hws]

theorem headerInfoOps_mem (req : TimecardRequest) (week : WeekData)
    (ws : DateTime) :
    ∀ p ∈ headerInfoOps req week ws,
      p.1.row = 2 ∨ p.1.row = 3 ∨
        (p.1.row = 4 ∧ (p.1.col = "B" ∨ p.1.col = "AJ")) := by
  intro p hp
  simp only [headerInfoOps, List.mem_cons, List.not_mem_nil, or_false] at hp
  rcases hp with h | h | h | h | h
  · rw [h]; exact Or.inl rfl
  · rw [h]; exact Or.inl rfl
  · rw [h]; exact Or.inr (Or.inl rfl)
  · rw [h]; exact Or.inr (Or.inr ⟨rfl, Or.inl rfl⟩)
  · rw [h]; exact Or.inr (Or.inr ⟨rfl, Or.inr rfl⟩)

theorem dayOps_rows (mr mo : GoStr → GoStr → Option ℚ) (kr ko : List GoStr)
    (ws : DateTime) (d : Nat) :
    ∀ p ∈ dayOps mr mo kr ko ws d, p.1.row = 5 + d ∨ p.1.row = 16 + d := by
  intro p hp
  simp only [dayOps] at hp
  rcases List.mem_append.mp hp with hp1 | hp2
  · rcases List.mem_append.mp hp1 with hp3 | hp4
    · rcases List.mem_cons.mp hp3 with h | h
      · left; rw [h]
      · right; rw [List.mem_singleton.mp h]
    · left; exact (dataOpsAux_targets _ _ _ _ 0 p hp4).1
  · right; exact (dataOpsAux_targets _ _ _ _ 0 p hp2).1

theorem applyWeek_dataCell (tmpl : Sheet) (req : TimecardRequest)
    (week : WeekData) (ws : DateTime) (b : Bool) (d i : Nat) (key : GoStr)
    (hws : parseRFC3339 week.weekStartDate = some ws)
    (hd : d < 7) (hi : i < 16)
    (hkey : (getUniqueJobNumbersForType week.entries b).get? i = some key) :
    applyWeek tmpl req week ⟨codeCols.getD i "", cond b 16 5 + d⟩ =
      match aggregateHours week.entries b (formatDateKey (addDays ws d)) key with
      | some v =>
        if v = 0 then tmpl ⟨codeCols.getD i "", cond b 16 5 + d⟩
        else CellValue.num v
      | none => tmpl ⟨codeCols.getD i "", cond b 16 5 + d⟩ := by
  rw [applyWeek_parse_ok tmpl req week ws hws, weekOpsList]
  cases b
  · simp only [Bool.cond_false]
    have hhdr : ∀ p ∈ (headerInfoOps req week ws
        ++ blockHeaderAux (jobMapF req.jobs) 4 0
            (getUniqueJobNumbersForType week.entries false))
        ++ blockHeaderAux (jobMapF req.jobs) 15 0
            (getUniqueJobNumbersForType week.entries true),
        p.1 ≠ (⟨codeCols.getD i "", 5 + d⟩ : Cell) := by
      intro p hp
      apply cell_ne_mk_row
      rcases List.mem_append.mp hp with hp1 | hp2
      · rcases List.mem_append.mp hp1 with hp3 | hp4
        · rcases headerInfoOps_mem req week ws p hp3 with h | h | ⟨h, _⟩ <;>
            rw [h] <;> omega
        · rw [(blockHeaderAux_targets _ _ _ 0 p hp4).1]
          omega
      · rw [(blockHeaderAux_targets _ _ _ 0 p hp2).1]
        omega
    rw [applyOps_skip_left _ _ _ _ hhdr]
    rw [applyOps_range_single _ 7 d _ _ hd (by
      intro d' hd' hne p hp
      apply cell_ne_mk_row
      rcases dayOps_rows _ _ _ _ ws d' p hp with h | h <;> rw [h] <;> omega)]
    simp only [dayOps]
    have hot : ∀ p ∈ dataOpsAux (aggregateHours week.entries true)
        (formatDateKey (addDays ws d)) (16 + d) 0
        (getUniqueJobNumbersForType week.entries true),
        p.1 ≠ (⟨codeCols.getD i "", 5 + d⟩ : Cell) := by
      intro p hp
      apply cell_ne_mk_row
      rw [(dataOpsAux_targets _ _ _ _ 0 p hp).1]
      omega
    rw [applyOps_skip_right _ _ _ _ hot]
    have hb : ∀ p ∈ [((⟨"B", 5 + d⟩ : Cell),
        CellValue.num (timeToExcelDate (addDays ws d))),
        ((⟨"B", 16 + d⟩ : Cell), CellValue.num (timeToExcelDate (addDays ws d)))],
        p.1 ≠ (⟨codeCols.getD i "", 5 + d⟩ : Cell) := by
      intro p hp
      rcases List.mem_cons.mp hp with h | h
      · rw [h]
        apply cell_ne_mk_col
        exact fun hc => (codeCols_getD_ne_fixed i hi).1 hc.symm
      · rw [List.mem_singleton.mp h]
        apply cell_ne_mk_col
        exact fun hc => (codeCols_getD_ne_fixed i hi).1 hc.symm
    rw [applyOps_skip_left _ _ _ _ hb]
    have heq : (⟨codeCols.getD i "", 5 + d⟩ : Cell) =
        ⟨codeCols.getD (0 + i) "", 5 + d⟩ := by rw [Nat.zero_add]
    rw [heq]
    exact applyOps_dataOpsAux _ _ _ _ tmpl 0 i key hkey (by omega)
  · simp only [Bool.cond_true]
    have hhdr : ∀ p ∈ (headerInfoOps req week ws
        ++ blockHeaderAux (jobMapF req.jobs) 4 0
            (getUniqueJobNumbersForType week.entries false))
        ++ blockHeaderAux (jobMapF req.jobs) 15 0
            (getUniqueJobNumbersForType week.entries true),
        p.1 ≠ (⟨codeCols.getD i "", 16 + d⟩ : Cell) := by
      intro p hp
      apply cell_ne_mk_row
      rcases List.mem_append.mp hp with hp1 | hp2
      · rcases List.mem_append.mp hp1 with hp3 | hp4
        · rcases headerInfoOps_mem req week ws p hp3 with h | h | ⟨h, _⟩ <;>
            rw [h] <;> omega
        · rw [(blockHeaderAux_targets _ _ _ 0 p hp4).1]
          omega
      · rw [(blockHeaderAux_targets _ _ _ 0 p hp2).1]
        omega
    rw [applyOps_skip_left _ _ _ _ hhdr]
    rw [applyOps_range_single _ 7 d _ _ hd (by
      intro d' hd' hne p hp
      apply cell_ne_mk_row
      rcases dayOps_rows _ _ _ _ ws d' p hp with h | h <;> rw [h] <;> omega)]
    simp only [dayOps]
    have hpre : ∀ p ∈ [((⟨"B", 5 + d⟩ : Cell),
        CellValue.num (timeToExcelDate (addDays ws d))),
        ((⟨"B", 16 + d⟩ : Cell), CellValue.num (timeToExcelDate (addDays ws d)))]
        ++ dataOpsAux (aggregateHours week.entries false)
            (formatDateKey (addDays ws d)) (5 + d) 0
            (getUniqueJobNumbersForType week.entries false),
        p.1 ≠ (⟨codeCols.getD i "", 16 + d⟩ : Cell) := by
      intro p hp
      rcases List.mem_append.mp hp with hp1 | hp2
      · rcases List.mem_cons.mp hp1 with h | h
        · rw [h]
          apply cell_ne_mk_col
          exact fun hc => (codeCols_getD_ne_fixed i hi).1 hc.symm
        · rw [List.mem_singleton.mp h]
          apply cell_ne_mk_col
          exact fun hc => (codeCols_getD_ne_fixed i hi).1 hc.symm
      · apply cell_ne_mk_row
        rw [(dataOpsAux_targets _ _ _ _ 0 p hp2).1]
        omega
    rw [List.append_assoc, ← List.append_assoc]
    rw [applyOps_skip_left _ _ _ _ hpre]
    have heq : (⟨codeCols.getD i "", 16 + d⟩ : Cell) =
        ⟨codeCols.getD (0 + i) "", 16 + d⟩ := by rw [Nat.zero_add]
    rw [heq]
    exact applyOps_dataOpsAux _ _ _ _ tmpl 0 i key hkey (by omega)

theorem weekOps_unmapped_no_target (req : TimecardRequest) (week : WeekData)
    (ws : DateTime) (b : Bool) (i : Nat) (key : GoStr) (hi : i < 16)
    (hkey : (getUniqueJobNumbersForType week.entries b).get? i = some key)
    (hjob : jobMapF req.jobs (headerActual key) = none) :
    ∀ p ∈ weekOpsList req week ws,
      p.1 ≠ (⟨codeCols.getD i "", cond b 15 4⟩ : Cell) ∧
      p.1 ≠ (⟨jobCols.getD i "", cond b 15 4⟩ : Cell) := by
  have hsame : ∀ r, ∀ p ∈ blockHeaderAux (jobMapF req.jobs) r 0
      (getUniqueJobNumbersForType week.entries b),
      p.1 ≠ (⟨codeCols.getD i "", r⟩ : Cell) ∧
      p.1 ≠ (⟨jobCols.getD i "", r⟩ : Cell) := by
    intro r p hp
    rcases blockHeaderAux_targets _ _ _ 0 p hp with
      ⟨hrow, t, key', _, ht16, hget, hsome, hcol⟩
    rw [Nat.sub_zero] at hget
    have hti : t ≠ i := by
      intro hti
      subst hti
      rw [hget] at hkey
      injection hkey with hk
      rw [hk] at hsome
      rw [hjob] at hsome
      simp at hsome
    constructor
    · apply cell_ne_mk_col
      rcases hcol with h | h <;> rw [h]
      · exact fun hc => hti (codeCols_getD_inj t ht16 i hi hc)
      · exact fun hc => codeCols_getD_ne_jobCols i hi t ht16 hc.symm
    · apply cell_ne_mk_col
      rcases hcol with h | h <;> rw [h]
      · exact codeCols_getD_ne_jobCols t ht16 i hi
      · exact fun hc => hti (jobCols_getD_inj t ht16 i hi hc)
  have hother : ∀ r r' : Nat, r' ≠ r →
      ∀ keys, ∀ p ∈ blockHeaderAux (jobMapF req.jobs) r' 0 keys,
      p.1 ≠ (⟨codeCols.getD i "", r⟩ : Cell) ∧
      p.1 ≠ (⟨jobCols.getD i "", r⟩ : Cell) := by
    intro r r' hne keys p hp
    have hrow := (blockHeaderAux_targets _ _ _ 0 p hp).1
    exact ⟨cell_ne_mk_row (by rw [hrow]; exact hne),
      cell_ne_mk_row (by rw [hrow]; exact hne)⟩
  have hhdr : ∀ r : Nat, r = 4 ∨ r = 15 →
      ∀ p ∈ headerInfoOps req week ws,
      p.1 ≠ (⟨codeCols.getD i "", r⟩ : Cell) ∧
      p.1 ≠ (⟨jobCols.getD i "", r⟩ : Cell) := by
    intro r hr p hp
    rcases headerInfoOps_mem req week ws p hp with h | h | ⟨h, hc⟩
    · exact ⟨cell_ne_mk_row (by rw [h]; omega), cell_ne_mk_row (by rw [h]; omega)⟩
    · exact ⟨cell_ne_mk_row (by rw [h]; omega), cell_ne_mk_row (by rw [h]; omega)⟩
    · rcases hr with hr | hr
      · subst hr
        rcases hc with hc | hc
        · exact ⟨cell_ne_mk_col (by
              rw [hc]; exact fun hx => (codeCols_getD_ne_fixed i hi).1 hx.symm),
            cell_ne_mk_col (by
              rw [hc]; exact fun hx => (jobCols_getD_ne_fixed i hi).1 hx.symm)⟩
        · exact ⟨cell_ne_mk_col (by
              rw [hc]; exact fun hx => (codeCols_getD_ne_fixed i hi).2 hx.symm),
            cell_ne_mk_col (by
              rw [hc]; exact fun hx => (jobCols_getD_ne_fixed i hi).2 hx.symm)⟩
      · subst hr
        exact ⟨cell_ne_mk_row (by rw [h]; omega),
          cell_ne_mk_row (by rw [h]; omega)⟩
  have hdays : ∀ r : Nat, r = 4 ∨ r = 15 →
      ∀ p ∈ (List.range 7).flatMap
        (dayOps (aggregateHours week.entries false)
          (aggregateHours week.entries true)
          (getUniqueJobNumbersForType week.entries false)
          (getUniqueJobNumbersForType week.entries true) ws),
      p.1 ≠ (⟨codeCols.getD i "", r⟩ : Cell) ∧
      p.1 ≠ (⟨jobCols.getD i "", r⟩ : Cell) := by
    intro r hr p hp
    rcases List.mem_flatMap.mp hp with ⟨d', hd', hpd⟩
    have hd7 : d' < 7 := List.mem_range.mp hd'
    rcases dayOps_rows _ _ _ _ ws d' p hpd with h | h
    · rcases hr with hr | hr <;> subst hr <;>
        exact ⟨cell_ne_mk_row (by rw [h]; omega),
          cell_ne_mk_row (by rw [h]; omega)⟩
    · rcases hr with hr | hr <;> subst hr <;>
        exact ⟨cell_ne_mk_row (by rw [h]; omega),
          cell_ne_mk_row (by rw [h]; omega)⟩
  intro p hp
  rw [weekOpsList] at hp
  cases b
  · simp only [Bool.cond_false]
    rcases List.mem_append.mp hp with hp1 | hp2
    · rcases List.mem_append.mp hp1 with hp3 | hp4
      · rcases List.mem_append.mp hp3 with hp5 | hp6
        · exact hhdr 4 (Or.inl rfl) p hp5
        · exact hsame 4 p hp6
      · exact hother 4 15 (by omega) _ p hp4
    · exact hdays 4 (Or.inl rfl) p hp2
  · simp only [Bool.cond_true]
    rcases List.mem_append.mp hp with hp1 | hp2
    · rcases List.mem_append.mp hp1 with hp3 | hp4
      · rcases List.mem_append.mp hp3 with hp5 | hp6
        · exact hhdr 15 (Or.inr rfl) p hp5
        · exact hother 15 4 (by omega) _ p hp6
      · exact hsame 15 p hp4
    · exact hdays 15 (Or.inr rfl) p hp2

theorem applyWeek_headerUntouched (tmpl : Sheet) (req : TimecardRequest)
    (week : WeekData) (ws : DateTime) (b : Bool) (i : Nat) (key : GoStr)
    (hws : parseRFC3339 week.weekStartDate = some ws) (hi : i < 16)
    (hkey : (getUniqueJobNumbersForType week.entries b).get? i = some key)
    (hjob : jobMapF req.jobs (headerActual key) = none) :
    applyWeek tmpl req week ⟨codeCols.getD i "", cond b 15 4⟩ =
      tmpl ⟨codeCols.getD i "", cond b 15 4⟩ ∧
    applyWeek tmpl req week ⟨jobCols.getD i "", cond b 15 4⟩ =
      tmpl ⟨jobCols.getD i "", cond b 15 4⟩ := by
  rw [applyWeek_parse_ok tmpl req week ws hws]
  constructor
  · exact applyOps_not_target _ _ _
      (fun p hp => (weekOps_unmapped_no_target req week ws b i key hi hkey hjob p hp).1)
  · exact applyOps_not_target _ _ _
      (fun p hp => (weekOps_unmapped_no_target req week ws b i key hi hkey hjob p hp).2)

/-! ## Helper lemmas: truncation at 16 columns and per-key buckets -/

theorem dataOpsAux_take (m : GoStr → GoStr → Option ℚ) (dk : GoStr) (row : Nat) :
    ∀ (keys : List GoStr) (i : Nat),
      dataOpsAux m dk row i keys = dataOpsAux m dk row i (keys.take (16 - i)) := by
  intro keys
  induction keys with
  | nil => intro i; rw [List.take_nil]
  | cons key rest ih =>
    intro i
    by_cases h16 : 16 ≤ i
    · have h0 : 16 - i = 0 := by omega
      rw [h0, List.take_zero]
      simp [dataOpsAux, h16]
    · have h1 : 16 - i = (16 - (i + 1)) + 1 := by omega
      rw [h1, List.take_succ_cons]
      simp only [dataOpsAux, if_neg h16]
      rw [ih (i + 1)]

theorem blockHeaderAux_take (jm : GoStr → Option Job) (row : Nat) :
    ∀ (keys : List GoStr) (i : Nat),
      blockHeaderAux jm row i keys = blockHeaderAux jm row i (keys.take (16 - i)) := by
  intro keys
  induction keys with
  | nil => intro i; rw [List.take_nil]
  | cons key rest ih =>
    intro i
    by_cases h16 : 16 ≤ i
    · have h0 : 16 - i = 0 := by omega
      rw [h0, List.take_zero]
      simp [blockHeaderAux, h16]
    · have h1 : 16 - i = (16 - (i + 1)) + 1 := by omega
      rw [h1, List.take_succ_cons]
      simp only [blockHeaderAux, if_neg h16]
      rw [ih (i + 1)]

theorem aggregate_key_only (entries : List Entry) (b : Bool) (dk k : GoStr) :
    aggregateHours entries b dk k =
      aggregateHours (entries.filter (fun e => entryKey e == k)) b dk k := by
  rw [aggregate_spec, aggregate_spec, List.filter_filter]
  have hpred : (fun a => matchesBucket b dk k a && (entryKey a == k)) =
      matchesBucket b dk k := by
    funext a
    by_cases hc : entryKey a = k
    · simp [matchesBucket, hc]
    · simp [matchesBucket, hc]
  rw [hpred]

/-! ## Claim theorems -/

/-- C1: for every week and block, the aggregator's output at a
(calendar-day, composite-key) pair is exactly the sum of `hours` over the
entries whose overtime flag matches the block, whose date parses and
formats to that day, and whose composite key matches (`none` when no entry
matches); and an entry whose date fails to parse matches no bucket of
either block, so it contributes to neither. -/
theorem C1_aggregator_sums :
    (∀ (entries : List Entry) (b : Bool) (dk k : GoStr),
      aggregateHours entries b dk k =
        if (entries.filter (matchesBucket b dk k)).isEmpty then none
        else some (((entries.filter (matchesBucket b dk k)).map Entry.hours).sum)) ∧
    (∀ (b : Bool) (dk k : GoStr) (e : Entry), parseRFC3339 e.date = none →
      matchesBucket b dk k e = false) := by
  constructor
  · exact aggregate_spec
  · intro b dk k e hp
    simp [matchesBucket, hp]

/-- Witness for C1 at concrete inputs: an entry with unparsable date is in
no bucket. -/
theorem C1_witness :
    matchesBucket false ("2024-01-01".toList) ("29699".toList)
      ⟨"bad".toList, "29699".toList, 8, false, false⟩ = false :=
  C1_aggregator_sums.2 false ("2024-01-01".toList) ("29699".toList)
    ⟨"bad".toList, "29699".toList, 8, false, false⟩ rfl

/-- C2: the column assignment sequence of a block is the first-appearance
order of distinct composite keys in the block-filtered entry sequence (no
sorting; deterministic because it is a function of the input), and both the
header loop and the data loop use only the first 16 keys of that sequence:
truncating the key list at 16 leaves their writes unchanged. -/
theorem C2_column_order :
    (∀ (entries : List Entry) (b : Bool),
      getUniqueJobNumbersForType entries b =
        firstSeenSpec ((entries.filter (fun e => e.overtime == b)).map entryKey)) ∧
    (∀ (m : GoStr → GoStr → Option ℚ) (dk : GoStr) (row : Nat)
      (keys : List GoStr),
      dataOpsAux m dk row 0 keys = dataOpsAux m dk row 0 (keys.take 16)) ∧
    (∀ (jm : GoStr → Option Job) (row : Nat) (keys : List GoStr),
      blockHeaderAux jm row 0 keys = blockHeaderAux jm row 0 (keys.take 16)) := by
  refine ⟨getUnique_eq_firstSeen, ?_, ?_⟩
  · intro m dk row keys
    have h := dataOpsAux_take m dk row keys 0
    simpa using h
  · intro jm row keys
    have h := blockHeaderAux_take jm row keys 0
    simpa using h

/-- C3: for every day offset and assigned column of a block, the data cell
receives the aggregated value exactly when it is present and non-zero;
when every aggregated value at that (day, key) is zero or absent, the cell
keeps its template content. -/
theorem C3_data_cell_written_iff (tmpl : Sheet) (req : TimecardRequest)
    (week : WeekData) (ws : DateTime) (b : Bool) (d i : Nat) (key : GoStr)
    (hws : parseRFC3339 week.weekStartDate = some ws)
    (hd : d < 7) (hi : i < 16)
    (hkey : (getUniqueJobNumbersForType week.entries b).get? i = some key) :
    (∀ v : ℚ,
      aggregateHours week.entries b (formatDateKey (addDays ws d)) key = some v →
      v ≠ 0 →
      applyWeek tmpl req week ⟨codeCols.getD i "", cond b 16 5 + d⟩ =
        CellValue.num v) ∧
    ((∀ v : ℚ,
      aggregateHours week.entries b (formatDateKey (addDays ws d)) key = some v →
      v = 0) →
      applyWeek tmpl req week ⟨codeCols.getD i "", cond b 16 5 + d⟩ =
        tmpl ⟨codeCols.getD i "", cond b 16 5 + d⟩) := by
  have hmain := applyWeek_dataCell tmpl req week ws b d i key hws hd hi hkey
  constructor
  · intro v hv hv0
    rw [hmain, hv]
    simp [hv0]
  · intro hall
    rcases hagg : aggregateHours week.entries b (formatDateKey (addDays ws d)) key
      with _ | v
    · rw [hmain, hagg]
    · have hz := hall v hagg
      rw [hmain, hagg]
      simp [hz]

/-- Witness for C3 at concrete inputs: job 29699's 8 hours land in cell C5. -/
theorem C3_witness :
    applyWeek fxTmpl fxReq fxWeek ⟨"C", 5⟩ = CellValue.num 8 := by
  have hagg : aggregateHours fxWeek.entries false
      (formatDateKey (addDays fxWs 0)) "29699".toList = some 8 := by
    rw [aggregate_spec]
    have hf : fxWeek.entries.filter (matchesBucket false
        (formatDateKey (addDays fxWs 0)) "29699".toList) = [fxEntry1] := by
      decide
    rw [hf]
    norm_num [fxEntry1]
  exact (C3_data_cell_written_iff fxTmpl fxReq fxWeek fxWs false 0 0
    ("29699".toList) rfl (by omega) (by omega) rfl).1 8 hagg (by norm_num)

/-- C9: a composite key whose job number has no matching `Job` still keeps
its column slot: both header cells of that slot stay at the template
default, while the slot's aggregated data cells are still written. -/
theorem C9_unmapped_job_column (tmpl : Sheet) (req : TimecardRequest)
    (week : WeekData) (ws : DateTime) (b : Bool) (i : Nat) (key : GoStr)
    (hws : parseRFC3339 week.weekStartDate = some ws) (hi : i < 16)
    (hkey : (getUniqueJobNumbersForType week.entries b).get? i = some key)
    (hjob : jobMapF req.jobs (headerActual key) = none) :
    applyWeek tmpl req week ⟨codeCols.getD i "", cond b 15 4⟩ =
      tmpl ⟨codeCols.getD i "", cond b 15 4⟩ ∧
    applyWeek tmpl req week ⟨jobCols.getD i "", cond b 15 4⟩ =
      tmpl ⟨jobCols.getD i "", cond b 15 4⟩ ∧
    (∀ (d : Nat) (v : ℚ), d < 7 →
      aggregateHours week.entries b (formatDateKey (addDays ws d)) key = some v →
      v ≠ 0 →
      applyWeek tmpl req week ⟨codeCols.getD i "", cond b 16 5 + d⟩ =
        CellValue.num v) := by
  rcases applyWeek_headerUntouched tmpl req week ws b i key hws hi hkey hjob
    with ⟨h1, h2⟩
  refine ⟨h1, h2, ?_⟩
  intro d v hd hv hv0
  rw [applyWeek_dataCell tmpl req week ws b d i key hws hd hi hkey, hv]
  simp [hv0]

/-- Witness for C9 at concrete inputs: with an empty job list, C4 and D4
stay blank while C5 still receives the 8 hours. -/
theorem C9_witness :
    applyWeek fxTmpl fxReqNoJobs fxWeek ⟨"C", 4⟩ = CellValue.empty ∧
    applyWeek fxTmpl fxReqNoJobs fxWeek ⟨"D", 4⟩ = CellValue.empty ∧
    applyWeek fxTmpl fxReqNoJobs fxWeek ⟨"C", 5⟩ = CellValue.num 8 := by
  have hagg : aggregateHours fxWeek.entries false
      (formatDateKey (addDays fxWs 0)) "29699".toList = some 8 := by
    rw [aggregate_spec]
    have hf : fxWeek.entries.filter (matchesBucket false
        (formatDateKey (addDays fxWs 0)) "29699".toList) = [fxEntry1] := by
      decide
    rw [hf]
    norm_num [fxEntry1]
  have h := C9_unmapped_job_column fxTmpl fxReqNoJobs fxWeek fxWs false 0
    ("29699".toList) rfl (by omega) rfl rfl
  exact ⟨h.1, h.2.1, h.2.2 0 8 (by omega) hagg (by norm_num)⟩

/-- Counterexample to C4 as stated: a template that opens with zero sheets
makes `generateExcelFile` return the error `"no sheets in template"`, not
the fallback basic workbook. -/
theorem C4_counterexample :
    generateExcelFile (some fxWbEmpty) fxReqEmpty =
      Except.error "no sheets in template" ∧
    generateExcelFile (some fxWbEmpty) fxReqEmpty ≠
      Except.ok (generateBasicExcelFile fxReqEmpty) := by
  have h1 : generateExcelFile (some fxWbEmpty) fxReqEmpty =
      Except.error "no sheets in template" := rfl
  refine ⟨h1, fun h => ?_⟩
  rw [h1] at h
  exact Except.noConfusion h

/-- C4 (amended): a missing template file yields the fallback basic
workbook; a template that opens but has zero sheets is a request error
(`"no sheets in template"`), not a fallback. -/
theorem C4_amended_fallback (req : TimecardRequest) (wb : Workbook) :
    generateExcelFile none req = Except.ok (generateBasicExcelFile req) ∧
    (wb.sheetNames = [] →
      generateExcelFile (some wb) req = Except.error "no sheets in template") := by
  constructor
  · rfl
  · intro h
    simp [generateExcelFile, h]

/-- Witness for C4 (amended) at concrete inputs. -/
theorem C4_witness :
    generateExcelFile none fxReqEmpty =
      Except.ok (generateBasicExcelFile fxReqEmpty) ∧
    generateExcelFile (some fxWbEmpty) fxReqEmpty =
      Except.error "no sheets in template" :=
  ⟨(C4_amended_fallback fxReqEmpty fxWbEmpty).1,
   (C4_amended_fallback fxReqEmpty fxWbEmpty).2 rfl⟩

/-- C5: entry normalization resolves aliases with the stated precedence:
`overtime` beats `isOvertime`; the night flag takes `night_shift`, then
`is_night_shift`, then `isNightShift`; a non-empty `job_code` beats `code`
(an absent JSON string field decodes to the empty string, so absence and
the empty string coincide); absent booleans default to `false` and an
absent job reference to the empty string. -/
theorem C5_normalization_precedence :
    (∀ (aux : RawEntry) (v : Bool), aux.overtime = some v →
      (unmarshalEntry aux).overtime = v) ∧
    (∀ (aux : RawEntry) (v : Bool), aux.overtime = none →
      aux.isOvertimeCamel = some v → (unmarshalEntry aux).overtime = v) ∧
    (∀ aux : RawEntry, aux.overtime = none → aux.isOvertimeCamel = none →
      (unmarshalEntry aux).overtime = false) ∧
    (∀ (aux : RawEntry) (v : Bool), aux.nightShift = some v →
      (unmarshalEntry aux).isNightShift = v) ∧
    (∀ (aux : RawEntry) (v : Bool), aux.nightShift = none →
      aux.isNightShiftSnake = some v → (unmarshalEntry aux).isNightShift = v) ∧
    (∀ (aux : RawEntry) (v : Bool), aux.nightShift = none →
      aux.isNightShiftSnake = none → aux.isNightShiftCamel = some v →
      (unmarshalEntry aux).isNightShift = v) ∧
    (∀ aux : RawEntry, aux.nightShift = none → aux.isNightShiftSnake = none →
      aux.isNightShiftCamel = none → (unmarshalEntry aux).isNightShift = false) ∧
    (∀ aux : RawEntry, aux.jobCode ≠ [] →
      (unmarshalEntry aux).jobCode = aux.jobCode) ∧
    (∀ aux : RawEntry, aux.jobCode = [] →
      (unmarshalEntry aux).jobCode = aux.code) := by
  refine ⟨?_, ?_, ?_, ?_, ?_, ?_, ?_, ?_, ?_⟩
  · intro aux v h; simp [unmarshalEntry, h]
  · intro aux v h1 h2; simp [unmarshalEntry, h1, h2]
  · intro aux h1 h2; simp [unmarshalEntry, h1, h2]
  · intro aux v h; simp [unmarshalEntry, h]
  · intro aux v h1 h2; simp [unmarshalEntry, h1, h2]
  · intro aux v h1 h2 h3; simp [unmarshalEntry, h1, h2, h3]
  · intro aux h1 h2 h3; simp [unmarshalEntry, h1, h2, h3]
  · intro aux h; simp [unmarshalEntry, h]
  · intro aux h; simp [unmarshalEntry, h]

/-- Witness for C5 at concrete raw entries. -/
theorem C5_witness :
    (unmarshalEntry fxRawA).overtime = true ∧
    (unmarshalEntry fxRawA).isNightShift = true ∧
    (unmarshalEntry fxRawA).jobCode = "X".toList ∧
    (unmarshalEntry fxRawB).overtime = false ∧
    (unmarshalEntry fxRawB).jobCode = "Y".toList := by
  obtain ⟨h1, h2, h3, h4, h5, h6, h7, h8, h9⟩ := C5_normalization_precedence
  exact ⟨h1 fxRawA true rfl, h5 fxRawA true rfl rfl,
    h8 fxRawA (by decide), h3 fxRawB rfl rfl, h9 fxRawB rfl⟩

/-- Counterexample to C6 as stated: at the parseable instant
9999-01-01T00:00:00Z, `t.Sub(excelEpoch)` saturates at the maximum
`time.Duration` (2^63 − 1 ns), so `timeToExcelDate` returns the clamped
≈106751.99 days rather than the ≈2.96 million days actually elapsed. -/
theorem C6_counterexample :
    timeToExcelDate ⟨9999, 1, 1, 0, 0, 0, 0, 0⟩ ≠
      elapsedDaysFromEpoch ⟨9999, 1, 1, 0, 0, 0, 0, 0⟩ := by
  have h1 : subNanos ⟨9999, 1, 1, 0, 0, 0, 0, 0⟩ excelEpoch =
      9223372036854775807 := by decide
  have h2 : subNanosExact ⟨9999, 1, 1, 0, 0, 0, 0, 0⟩ excelEpoch =
      255579926400000000000 := by decide
  rw [timeToExcelDate, elapsedDaysFromEpoch, h1, h2]
  norm_num

/-- C6 (amended): the date-serial conversion equals the fractional days
elapsed from 1899-12-30T00:00:00Z to the given instant whenever that
interval fits in a signed 64-bit nanosecond count (Go's `Sub` saturates
beyond ±2^63 ns, roughly ±292 years); in particular it sends
1899-12-30T00:00:00Z to 0 and 1900-01-01T00:00:00Z to 2. -/
theorem C6_amended_serial :
    (∀ t : DateTime,
      -9223372036854775808 ≤ subNanosExact t excelEpoch →
      subNanosExact t excelEpoch ≤ 9223372036854775807 →
      timeToExcelDate t = elapsedDaysFromEpoch t) ∧
    timeToExcelDate ⟨1899, 12, 30, 0, 0, 0, 0, 0⟩ = 0 ∧
    timeToExcelDate ⟨1900, 1, 1, 0, 0, 0, 0, 0⟩ = 2 := by
  refine ⟨?_, ?_, ?_⟩
  · intro t hlo hhi
    have hs : subNanos t excelEpoch = subNanosExact t excelEpoch := by
      simp only [subNanos]
      rw [if_neg (by omega), if_neg (by omega)]
    rw [timeToExcelDate, elapsedDaysFromEpoch, hs, div_div]
    norm_num
  · have h : subNanos ⟨1899, 12, 30, 0, 0, 0, 0, 0⟩ excelEpoch = 0 := by decide
    rw [timeToExcelDate, h]
    norm_num
  · have h : subNanos ⟨1900, 1, 1, 0, 0, 0, 0, 0⟩ excelEpoch =
        172800000000000 := by decide
    rw [timeToExcelDate, h]
    norm_num

/-- Witness for C6 (amended) at the in-range instant 2024-01-01T00:00:00Z
(45292 days after the epoch), plus the 1900-01-01 anchor. -/
theorem C6_witness :
    timeToExcelDate ⟨2024, 1, 1, 0, 0, 0, 0, 0⟩ = 45292 ∧
    timeToExcelDate ⟨1900, 1, 1, 0, 0, 0, 0, 0⟩ = 2 := by
  constructor
  · have h := C6_amended_serial.1 ⟨2024, 1, 1, 0, 0, 0, 0, 0⟩
      (by decide) (by decide)
    have h2 : subNanosExact ⟨2024, 1, 1, 0, 0, 0, 0, 0⟩ excelEpoch =
        3913228800000000000 := by decide
    rw [h, elapsedDaysFromEpoch, h2]
    norm_num
  · exact C6_amended_serial.2.2

/-- C7: entries that differ only in the night-shift flag get distinct
composite keys; the column sequence of a block never repeats a key (so the
two keys occupy distinct slots); and a bucket at key `k` is built only from
entries whose composite key is `k` (so the two keys aggregate separately). -/
theorem C7_night_keys_distinct :
    (∀ e1 e2 : Entry, e1.jobCode = e2.jobCode → e1.isNightShift = true →
      e2.isNightShift = false → entryKey e1 ≠ entryKey e2) ∧
    (∀ (entries : List Entry) (b : Bool),
      (getUniqueJobNumbersForType entries b).Nodup) ∧
    (∀ (entries : List Entry) (b : Bool) (dk k : GoStr),
      aggregateHours entries b dk k =
        aggregateHours (entries.filter (fun e => entryKey e == k)) b dk k) := by
  refine ⟨?_, getUnique_nodup, aggregate_key_only⟩
  intro e1 e2 hc h1 h2
  rw [entryKey, entryKey, h1, h2, hc]
  simp

/-- Witness for C7 at concrete entries. -/
theorem C7_witness : entryKey fxEntryNight ≠ entryKey fxEntry1 :=
  C7_night_keys_distinct.1 fxEntryNight fxEntry1 rfl rfl rfl

/-- C8: when the first week's start date fails to parse, that week's whole
projection is skipped (the first sheet keeps all its template cells), the
second week is still projected onto the second sheet, and the call still
returns a workbook successfully. -/
theorem C8_bad_week_skipped (wb : Workbook) (req : TimecardRequest)
    (s0 s1 : String) (srest : List String) (w1 w2 : WeekData)
    (wrest : List WeekData)
    (hs : wb.sheetNames = s0 :: s1 :: srest) (hw : req.weeks = w1 :: w2 :: wrest)
    (hne : s0 ≠ s1) (hbad : parseRFC3339 w1.weekStartDate = none) :
    generateExcelFile (some wb) req =
      Except.ok (updateSheet (updateSheet wb s0 (wb.cells s0)) s1
        (applyWeek (wb.cells s1) req w2)) ∧
    (updateSheet (updateSheet wb s0 (wb.cells s0)) s1
      (applyWeek (wb.cells s1) req w2)).cells s0 = wb.cells s0 := by
  have hfail : applyWeek (wb.cells s0) req w1 = wb.cells s0 :=
    applyWeek_parse_fail _ _ _ hbad
  have hns : ¬ s1 = s0 := fun h => hne h.symm
  constructor
  · have hcell : (updateSheet wb s0 (applyWeek (wb.cells s0) req w1)).cells s1 =
        wb.cells s1 := by
      simp [updateSheet, hns]
    simp only [generateExcelFile, hs, hw]
    simp only [List.isEmpty_cons, List.getD_cons_zero, List.getD_cons_succ,
      List.get?_cons_zero, List.get?_cons_succ, List.length_cons]
    rw [if_neg (by simp)]
    rw [if_pos (by omega)]
    rw [hcell, hfail]
  · simp [updateSheet, hne, hns]

/-- Witness for C8 at concrete inputs: week 1 has start date `"bad"`. -/
theorem C8_witness :
    generateExcelFile (some fxWb) fxReqTwoWeeks =
      Except.ok (updateSheet (updateSheet fxWb "Sheet1" (fxWb.cells "Sheet1"))
        "Sheet2" (applyWeek (fxWb.cells "Sheet2") fxReqTwoWeeks fxWeek2)) ∧
    (updateSheet (updateSheet fxWb "Sheet1" (fxWb.cells "Sheet1")) "Sheet2"
      (applyWeek (fxWb.cells "Sheet2") fxReqTwoWeeks fxWeek2)).cells "Sheet1" =
      fxWb.cells "Sheet1" :=
  C8_bad_week_skipped fxWb fxReqTwoWeeks "Sheet1" "Sheet2" [] fxWeekBad fxWeek2
    [] rfl rfl (by decide) rfl

/-- C10: within one block, a night-shift entry on job `c` and a non-night
entry on job `N`+`c` share the composite key `N`+`c`: they are summed into
one bucket and occupy a single column slot; header rendering treats any key
starting with `N` as night-shift and strips the first character before the
job lookup. -/
theorem C10_night_key_aliasing (c : GoStr) (e1 e2 : Entry) (b : Bool)
    (t1 t2 : DateTime) (dk : GoStr)
    (h1n : e1.isNightShift = true) (h1c : e1.jobCode = c)
    (h2n : e2.isNightShift = false) (h2c : e2.jobCode = 'N' :: c)
    (h1b : e1.overtime = b) (h2b : e2.overtime = b)
    (hp1 : parseRFC3339 e1.date = some t1) (hp2 : parseRFC3339 e2.date = some t2)
    (hf1 : formatDateKey t1 = dk) (hf2 : formatDateKey t2 = dk) :
    entryKey e1 = entryKey e2 ∧
    aggregateHours [e1, e2] b dk ('N' :: c) = some (e1.hours + e2.hours) ∧
    getUniqueJobNumbersForType [e1, e2] b = ['N' :: c] ∧
    headerNight ('N' :: c) = true ∧
    headerActual ('N' :: c) = c := by
  have hk1 : entryKey e1 = 'N' :: c := by rw [entryKey, h1n, h1c]; rfl
  have hk2 : entryKey e2 = 'N' :: c := by rw [entryKey, h2n, h2c]; rfl
  have hnight : headerNight ('N' :: c) = true := by
    simp [headerNight, List.isPrefixOf]
  refine ⟨hk1.trans hk2.symm, ?_, ?_, hnight, ?_⟩
  · rw [aggregate_spec]
    have hm1 : matchesBucket b dk ('N' :: c) e1 = true := by
      simp [matchesBucket, hp1, hf1, h1b, hk1]
    have hm2 : matchesBucket b dk ('N' :: c) e2 = true := by
      simp [matchesBucket, hp2, hf2, h2b, hk2]
    have hf : [e1, e2].filter (matchesBucket b dk ('N' :: c)) = [e1, e2] := by
      simp [List.filter_cons, hm1, hm2]
    rw [hf]
    simp [add_assoc]
  · have hov1 : ¬ e1.overtime ≠ b := by simp [h1b]
    have hov2 : ¬ e2.overtime ≠ b := by simp [h2b]
    rw [getUniqueJobNumbersForType, getUniqueAux, if_neg hov1]
    rw [if_neg (by simp)]
    rw [getUniqueAux, if_neg hov2]
    rw [if_pos (by simp [hk1, hk2])]
    rw [getUniqueAux, hk1]
  · rw [headerActual, if_pos hnight]
    rfl

/-- Witness for C10 at concrete entries on job 29699. -/
theorem C10_witness :
    entryKey fxEntryNight = entryKey fxEntryAlias ∧
    aggregateHours [fxEntryNight, fxEntryAlias] false ("2024-01-01".toList)
      ('N' :: "29699".toList) = some (3 + 8) ∧
    getUniqueJobNumbersForType [fxEntryNight, fxEntryAlias] false =
      ['N' :: "29699".toList] ∧
    headerNight ('N' :: "29699".toList) = true ∧
    headerActual ('N' :: "29699".toList) = "29699".toList := by
  have h := C10_night_key_aliasing ("29699".toList) fxEntryNight fxEntryAlias
    false ⟨2024, 1, 1, 9, 0, 0, 0, 0⟩ ⟨2024, 1, 1, 10, 0, 0, 0, 0⟩
    ("2024-01-01".toList) rfl rfl rfl rfl rfl rfl rfl rfl (by decide) (by decide)
  exact h
